import Mathlib

/-!
Verification of the filmFS virtual-filesystem core.

The C sources are shallowly embedded: C strings become `List Char`,
the static catalog arrays become lists carried in explicit state,
syscall results (stat, open, pread, /proc reads, the database insert)
become oracle parameters, and the FUSE callbacks become pure functions
returning their `int` result together with their observable effects.
-/

namespace FilmFS

/-- Model of a C character string (without its terminating NUL). -/
abbrev CStr := List Char

/-- Errno value ENOENT (no such file or directory). -/
def ENOENT : Int := 2

/-- Errno value EIO_code (input/output error). -/
def EIO_code : Int := 5

/-- Errno value EFAULT (bad address). -/
def EFAULT : Int := 14

/-- Errno value EPERM (operation not permitted). -/
def EPERM : Int := 1

/-- C `tolower` in the POSIX locale: maps an upper-case ASCII letter to
its lower-case form and leaves every other character unchanged. -/
def c_tolower (c : Char) : Char :=
  if 'A' ≤ c ∧ c ≤ 'Z' then Char.ofNat (c.toNat + 32) else c

/-- Model of `strrchr(s, '.')` split into (prefix up to and including the
last dot, suffix strictly after the last dot); `none` when `s` has no dot.
This is the view of the string that `has_video_extension` works with. -/
def splitLastDot : CStr → Option (CStr × CStr)
  | [] => none
  | c :: cs =>
    match splitLastDot cs with
    | some (pre, suf) => some (c :: pre, suf)
    | none => if c = '.' then some ([c], cs) else none

/-- The eleven recognized video extensions from `video.c`. -/
def video_extensions : List CStr :=
  ["3gp".toList, "avi".toList, "flv".toList, "ogv".toList, "m4v".toList,
   "mov".toList, "mkv".toList, "mp4".toList, "mpg".toList, "mpeg".toList,
   "webm".toList]

/-- The `strcmp`-based linear search loop used both for extensions and for
media-player names: true iff `s` equals some element of `l`. -/
def str_in_list (s : CStr) : List CStr → Bool
  | [] => false
  | e :: es => if s = e then true else str_in_list s es

/-- `has_video_extension` from `video.c`: locate the final dot; absent →
not a video; otherwise lower-case the suffix and compare by exact string
match against the fixed extension set. -/
def has_video_extension (filename : CStr) : Bool :=
  match splitLastDot filename with
  | none => false
  | some (_, ext) => str_in_list (ext.map c_tolower) video_extensions

/-- The in-place side effect of `has_video_extension` on its argument
buffer: the `tolower` loop writes through the `const char *` parameter, so
after the call the characters after the final dot are lower-cased.
`library_init` copies `dp->d_name` only after this mutation. -/
def lowercase_extension (filename : CStr) : CStr :=
  match splitLastDot filename with
  | none => filename
  | some (pre, ext) => pre ++ ext.map c_tolower

/-- The acceptance condition in the words of the specification: the
filename contains a final dot and the suffix after that dot, compared
case-insensitively, is one of the fixed video extensions. -/
def hasVideoExtensionSpec (s : CStr) : Prop :=
  ∃ base ext, s = base ++ '.' :: ext ∧ '.' ∉ ext ∧
    ext.map c_tolower ∈ video_extensions

/-- `PATH_MAX` from `common.h`. -/
def PATH_MAX : Nat := 4096

/-- `FILES_MAX` from `video.h`: initial capacity and growth increment of
the catalog arrays. -/
def FILES_MAX : Nat := 64

/-- `DT_REG`: the `d_type` value of a regular directory entry. -/
def DT_REG : Nat := 8

/-- A directory entry as returned by `readdir`: its type tag and name. -/
structure dirent where
  d_type : Nat
  d_name : CStr
deriving DecidableEq

/-- Model of `snprintf(buf, PATH_MAX, "%s%s", library_path, name)`: the
concatenation truncated to `PATH_MAX - 1` characters. -/
def path_concat (library_path name : CStr) : CStr :=
  (library_path ++ name).take (PATH_MAX - 1)

/-- The state built up by `library_init`: the parallel `names`/`paths`
arrays, `files.count`, and the current allocated capacity `buffer_size`. -/
structure lib_state where
  names : List CStr
  paths : List CStr
  count : Nat
  buffer_size : Nat
deriving DecidableEq

/-- One iteration of the `readdir` loop body of `library_init`: accept the
entry when it is a regular file with a recognized video extension; the
stored name is `d_name` after `has_video_extension`'s in-place lower-casing
of the extension; the stored path is the `snprintf` concatenation; then
grow the capacity by `FILES_MAX` when the arrays have become full. -/
def library_step (library_path : CStr) (s : lib_state) (d : dirent) : lib_state :=
  if d.d_type = DT_REG ∧ has_video_extension d.d_name = true then
    let count1 := s.count + 1
    { names := s.names ++ [lowercase_extension d.d_name]
      paths := s.paths ++ [path_concat library_path d.d_name]
      count := count1
      buffer_size :=
        if count1 = s.buffer_size then s.buffer_size + FILES_MAX else s.buffer_size }
  else s

/-- `library_init` from `video.c` on the list of entries that `readdir`
yields for the library directory (allocation is assumed to succeed; the
directory contents are a parameter of the model). -/
def library_init (library_path : CStr) (entries : List dirent) : lib_state :=
  entries.foldl (library_step library_path) ⟨[], [], 0, FILES_MAX⟩

/-- The `struct video_files` cache served by `get_files`. -/
structure video_files where
  names : List CStr
  paths : List CStr
  count : Nat
deriving DecidableEq

/-- The catalog view of a finished `library_init` state. -/
def files_of (s : lib_state) : video_files :=
  ⟨s.names, s.paths, s.count⟩

/-- The search loop of `get_file_status`: walk the parallel arrays, and on
the first name equal to `target` return `stat`'s answer for the stored real
path — `(0, size)` on success and `(-1, none)` when `stat` fails (the C
code returns `stat`'s own `-1` result there, not `-errno`).  When no name
matches, return `-ENOENT`. -/
def status_search (stat : CStr → Option Nat) :
    List CStr → List CStr → CStr → Int × Option Nat
  | nm :: ns, p :: ps, target =>
    if target = nm then
      match stat p with
      | some sz => (0, some sz)
      | none => (-1, none)
    else status_search stat ns ps target
  | _, _, _ => (-ENOENT, none)

/-- `get_file_status` from `operations.c`: strip the leading slash of the
virtual path and search the catalog; `stat` is the oracle giving the size
of a real file or `none` when the underlying `stat` call fails. -/
def get_file_status (files : video_files) (stat : CStr → Option Nat)
    (path : CStr) : Int × Option Nat :=
  status_search stat files.names files.paths (path.drop 1)

/-- `S_IFDIR` file-type bits. -/
def S_IFDIR : Nat := 0o040000

/-- `S_IFREG` file-type bits. -/
def S_IFREG : Nat := 0o100000

/-- The `struct stat` fields that `fs_getattr` populates; `st_size` is
`none` on the directory branch, which never sets it. -/
structure stat_buf where
  st_uid : Nat
  st_gid : Nat
  st_atime : Int
  st_mtime : Int
  st_mode : Nat
  st_nlink : Nat
  st_size : Option Nat
deriving DecidableEq

/-- `fs_getattr` from `operations.c`.  `uid`/`gid` are the ids of the
running process, `current_time` is `time(NULL)`'s result (`-1` = failure,
in which case `errno_time` holds `errno`), and `stat` is the attribute
oracle for real files.  Errors are the negative `int` the callback
returns. -/
def fs_getattr (files : video_files) (stat : CStr → Option Nat)
    (uid gid : Nat) (current_time errno_time : Int) (path : CStr) :
    Except Int stat_buf :=
  if current_time = -1 then .error (-errno_time)
  else if path = "/".toList then
    .ok { st_uid := uid, st_gid := gid, st_atime := current_time,
          st_mtime := current_time, st_mode := S_IFDIR + 0o755,
          st_nlink := 2, st_size := none }
  else
    match get_file_status files stat path with
    | (0, some sz) =>
      .ok { st_uid := uid, st_gid := gid, st_atime := current_time,
            st_mtime := current_time, st_mode := S_IFREG + 0o644,
            st_nlink := 1, st_size := some sz }
    | (e, _) => .error e

/-- `fs_readdir` from `operations.c`: the `filler` callback is modelled by
appending each filled name to a buffer list; the function always fills
"." and "..", adds the catalog names only for the root path, and always
returns 0. -/
def fs_readdir (files : video_files) (path : CStr) : Int × List CStr :=
  let buffer : List CStr := []
  let buffer := buffer ++ [".".toList]
  let buffer := buffer ++ ["..".toList]
  let buffer :=
    if path = "/".toList then
      files.names.foldl (fun b n => b ++ [n]) buffer
    else buffer
  (0, buffer)

/-- The fixed media-player allow-list of `logging_handle`. -/
def media_player_comm : List CStr :=
  ["demux".toList, "vlc:disk$0".toList]

/-- The observable outcome of one `logging_handle` call: its return value,
the value of the static `last_pid` afterwards, and the `db_insert` calls
it issued (tagged with the pid of the triggering request). -/
structure log_result where
  ret : Int
  last_pid : Int
  db_calls : List (Int × CStr)
deriving DecidableEq

/-- `logging_handle` from `operations.c`.  `comm` is `get_proc_name`'s
result (`none` = the `/proc` lookup failed), `pid` the caller's process id
from the FUSE context, `db_ok` whether `db_insert` succeeds, and
`last_pid` the current value of the static deduplication slot. -/
def logging_handle (comm : Option CStr) (pid : Int) (db_ok : Bool)
    (path : CStr) (last_pid : Int) : log_result :=
  match comm with
  | none => ⟨-EIO_code, last_pid, []⟩
  | some proc_name =>
    let caller_is_media_player := str_in_list proc_name media_player_comm
    if caller_is_media_player = true ∧ pid ≠ last_pid then
      if db_ok then ⟨0, pid, [(pid, path)]⟩
      else ⟨-EFAULT, pid, [(pid, path)]⟩
    else ⟨0, last_pid, []⟩

/-- One Read request in a deduplication trace: the caller's pid and its
(successfully looked-up) command name. -/
structure read_evt where
  pid : Int
  comm : CStr
deriving DecidableEq

/-- A sequence of Reads of `path` threaded through `logging_handle`'s
static state, with `db_insert` succeeding; returns the final `last_pid`
and the concatenated `db_insert` calls. -/
def log_run (path : CStr) (events : List read_evt) (last_pid : Int) :
    Int × List (Int × CStr) :=
  events.foldl
    (fun acc e =>
      let r := logging_handle (some e.comm) e.pid true path acc.1
      (r.last_pid, acc.2 ++ r.db_calls))
    (last_pid, [])

/-- The `pread` accumulation loop of `fs_read`, with an explicit fuel that
bounds the number of iterations so the recursion is structural.  Each
iteration that continues delivers at least one byte, so `size - bytes_read`
units of fuel always suffice and the fuel-exhausted branch is unreachable
from `read_loop`'s entry (`read_loop_fuel_enough`). -/
def read_loop_fuel (pread : Nat → Nat → Int) (size offset : Nat) :
    Nat → Nat → Option Int → Nat × Option Int
  | 0, bytes_read, result => (bytes_read, result)
  | fuel + 1, bytes_read, result =>
    if bytes_read < size then
      let r := pread (size - bytes_read) (offset + bytes_read)
      if r ≤ 0 then (bytes_read, some r)
      else read_loop_fuel pread size offset fuel (bytes_read + r.toNat) (some r)
    else (bytes_read, result)

/-- The `pread` accumulation loop of `fs_read`: starting from
`bytes_read`, repeatedly issue `pread (size - bytes_read)
(offset + bytes_read)` until the buffer is full or a call returns a value
that is not positive.  Returns the final `bytes_read` together with the
last `pread` result (`none` when the loop body never ran, modelling the
C code's uninitialized `result` variable). -/
def read_loop (pread : Nat → Nat → Int) (size offset : Nat)
    (bytes_read : Nat) (result : Option Int) : Nat × Option Int :=
  read_loop_fuel pread size offset (size - bytes_read) bytes_read result

/-- The environment of one `fs_read` call: the caller's command name and
pid, whether `db_insert` succeeds, the `open` oracle (full path → file
descriptor, `none` = failure), the `pread` oracle (count, file offset →
result), whether `close` succeeds, and the value `errno` holds at a
failing syscall. -/
structure read_env where
  comm : Option CStr
  pid : Int
  db_ok : Bool
  open_fd : CStr → Option Nat
  pread : Nat → Nat → Int
  close_ok : Bool
  errno : Int

/-- The observable outcome of `fs_read`: its return value, the
deduplication slot afterwards, the `db_insert` calls issued, and whether
the read loop was reached at all. -/
structure fs_read_out where
  ret : Int
  last_pid : Int
  db_calls : List (Int × CStr)
  read_done : Bool
deriving DecidableEq

/-- `fs_read` from `operations.c`: run `logging_handle` first and return
its error unchanged on failure; search the catalog names for the path
without its leading slash (`-ENOENT` when absent); rebuild the full path
as `library_path ++ name`; take the descriptor from `fi` when present,
otherwise `open` the file for this call only; accumulate `pread`s; a final
result of `-1` is `-errno`; when this call opened the file, a failing
`close` is also `-errno`; otherwise return the byte count. -/
def fs_read (files : video_files) (library_path path : CStr)
    (size offset : Nat) (fi : Option Nat) (env : read_env)
    (last_pid : Int) : fs_read_out :=
  let log := logging_handle env.comm env.pid env.db_ok path last_pid
  if log.ret ≠ 0 then ⟨log.ret, log.last_pid, log.db_calls, false⟩
  else
    match files.names.find? (fun nm => decide (path.drop 1 = nm)) with
    | none => ⟨-ENOENT, log.last_pid, log.db_calls, false⟩
    | some nm =>
      let full_path := path_concat library_path nm
      let fd : Int :=
        match fi with
        | some f => (f : Int)
        | none =>
          match env.open_fd full_path with
          | some f => (f : Int)
          | none => -1
      if fd = -1 then ⟨-env.errno, log.last_pid, log.db_calls, false⟩
      else
        let lp := read_loop env.pread size offset 0 none
        if lp.2 = some (-1) then ⟨-env.errno, log.last_pid, log.db_calls, true⟩
        else if fi = none ∧ env.close_ok = false then
          ⟨-env.errno, log.last_pid, log.db_calls, true⟩
        else ⟨(lp.1 : Int), log.last_pid, log.db_calls, true⟩

/-- `pread` on an error-free regular file of `n` bytes: a positioned read
of `count` bytes at `off` returns `min count (n - off)` bytes, in
particular `0` at or past end-of-file. -/
def preadFile (n : Nat) : Nat → Nat → Int :=
  fun count off => ((min count (n - off) : Nat) : Int)

/-- A faulty `pread`: delivers `k` bytes for the request at file offset
`start` and fails with `-1` for any other offset — the shape of a device
error after partial success. -/
def pread_fail_after (start k : Nat) : Nat → Nat → Int :=
  fun _ off => if off = start then (k : Int) else -1

/-- Concrete test fixture: filename "a.mp4". -/
def nm_a : CStr := "a.mp4".toList

/-- Concrete test fixture: filename "B.MKV". -/
def nm_B : CStr := "B.MKV".toList

/-- Concrete test fixture: filename "B.mkv". -/
def nm_B_low : CStr := "B.mkv".toList

/-- Concrete test fixture: filename "notes.txt". -/
def nm_notes : CStr := "notes.txt".toList

/-- Concrete test fixture: filename "no_ext". -/
def nm_noext : CStr := "no_ext".toList

/-- Concrete test fixture: a library directory path. -/
def lib_demo : CStr := "/lib/".toList

/-- Concrete test fixture: the virtual path "/a.mp4". -/
def path_a : CStr := "/a.mp4".toList

/-- Concrete test fixture: the virtual path "/x.mp4". -/
def path_x : CStr := "/x.mp4".toList

/-- Concrete test fixture: the recognized comm name "demux". -/
def comm_demux : CStr := "demux".toList

/-- Concrete test fixture: the recognized comm name "vlc:disk$0". -/
def comm_vlc : CStr := "vlc:disk$0".toList

/-- Concrete test fixture: the unrecognized comm name "firefox". -/
def comm_firefox : CStr := "firefox".toList

/-- Concrete test fixture: the four-file demo directory of §8. -/
def demo_dir : List dirent :=
  [⟨DT_REG, nm_a⟩, ⟨DT_REG, nm_B⟩, ⟨DT_REG, nm_notes⟩, ⟨DT_REG, nm_noext⟩]

/-- Concrete test fixture: a one-file catalog holding "a.mp4". -/
def files_demo : video_files :=
  ⟨[nm_a], [path_concat lib_demo nm_a], 1⟩

/-- Concrete test fixture: the root path "/". -/
def root_path : CStr := "/".toList

/-- Concrete test fixture: a directory of 65 accepted video files,
exercising the growth-by-64 path. -/
def ds65 : List dirent := List.replicate 65 ⟨DT_REG, nm_a⟩

/-- Concrete test fixture: a Read environment whose `/proc` command-name
lookup fails. -/
def env_c8 : read_env :=
  { comm := none, pid := 100, db_ok := true, open_fd := fun _ => some 3,
    pread := preadFile 10, close_ok := true, errno := EIO_code }

/-- Concrete test fixture: a Read environment over an error-free 10-byte
file, from an unrecognized caller. -/
def env_c4 : read_env :=
  { comm := some comm_firefox, pid := 100, db_ok := true,
    open_fd := fun _ => some 3, pread := preadFile 10, close_ok := true,
    errno := EIO_code }

/-- Concrete test fixture: a Read environment whose `pread` fails after
delivering 2 bytes at file offset 8. -/
def env_c4f : read_env :=
  { comm := some comm_firefox, pid := 100, db_ok := true,
    open_fd := fun _ => some 3, pread := pread_fail_after 8 2,
    close_ok := true, errno := EIO_code }

/-! Helper lemmas. -/

/-- The `strcmp` search loop finds exactly the list members. -/
theorem str_in_list_iff (s : CStr) (l : List CStr) :
    str_in_list s l = true ↔ s ∈ l := by
  induction l with
  | nil => simp [str_in_list]
  | cons e es ih => by_cases h : s = e <;> simp [str_in_list, h, ih]

/-- `splitLastDot` fails exactly on dot-free strings. -/
theorem splitLastDot_eq_none (s : CStr) :
    splitLastDot s = none ↔ '.' ∉ s := by
  induction s with
  | nil => simp [splitLastDot]
  | cons c cs ih =>
    cases h : splitLastDot cs with
    | some pr =>
      have hmem : '.' ∈ cs := by
        by_contra hn
        have h0 := ih.mpr hn
        rw [h] at h0
        cases h0
      simp [splitLastDot, h, hmem]
    | none =>
      have hcs : '.' ∉ cs := ih.mp h
      by_cases hc : c = '.'
      · simp [splitLastDot, h, hc]
      · have hcr : ¬ '.' = c := fun hh => hc hh.symm
        simp [splitLastDot, h, hc, hcs, hcr]

/-- Computing `splitLastDot` on an explicit last-dot decomposition. -/
theorem splitLastDot_append (base suf : CStr) (h : '.' ∉ suf) :
    splitLastDot (base ++ '.' :: suf) = some (base ++ ['.'], suf) := by
  induction base with
  | nil => simp [splitLastDot, (splitLastDot_eq_none suf).mpr h]
  | cons b bs ih => simp [splitLastDot, ih]

/-- A successful `splitLastDot` yields a last-dot decomposition. -/
theorem splitLastDot_some (s pre suf : CStr)
    (h : splitLastDot s = some (pre, suf)) :
    ∃ base, pre = base ++ ['.'] ∧ s = base ++ '.' :: suf ∧ '.' ∉ suf := by
  induction s generalizing pre suf with
  | nil => simp [splitLastDot] at h
  | cons c cs ih =>
    simp only [splitLastDot] at h
    cases hcs : splitLastDot cs with
    | some pr =>
      rw [hcs] at h
      obtain ⟨pr1, pr2⟩ := pr
      simp only [Option.some.injEq, Prod.mk.injEq] at h
      obtain ⟨h1, h2⟩ := h
      obtain ⟨base, hb1, hb2, hb3⟩ := ih pr1 pr2 hcs
      subst h2
      exact ⟨c :: base, by simp [← h1, hb1], by simp [hb2], hb3⟩
    | none =>
      rw [hcs] at h
      by_cases hc : c = '.'
      · rw [if_pos hc] at h
        simp only [Option.some.injEq, Prod.mk.injEq] at h
        obtain ⟨h1, h2⟩ := h
        subst h2
        exact ⟨[], by simp [← h1, hc], by simp [hc],
          (splitLastDot_eq_none cs).mp hcs⟩
      · rw [if_neg hc] at h
        cases h

/-- `has_video_extension` decides exactly the specification's acceptance
condition. -/
theorem has_video_extension_iff (s : CStr) :
    has_video_extension s = true ↔ hasVideoExtensionSpec s := by
  unfold has_video_extension hasVideoExtensionSpec
  cases h : splitLastDot s with
  | none =>
    simp only [Bool.false_eq_true, false_iff]
    rintro ⟨base, ext, rfl, hne, -⟩
    rw [splitLastDot_append base ext hne] at h
    cases h
  | some pr =>
    obtain ⟨pre, suf⟩ := pr
    rw [str_in_list_iff]
    constructor
    · intro hmem
      obtain ⟨base, -, hb2, hb3⟩ := splitLastDot_some s pre suf h
      exact ⟨base, suf, hb2, hb3, hmem⟩
    · rintro ⟨base, ext, rfl, hne, hmem⟩
      rw [splitLastDot_append base ext hne] at h
      simp only [Option.some.injEq, Prod.mk.injEq] at h
      rw [← h.2]
      exact hmem

/-- Folding the `filler` callback over a name list appends the names. -/
theorem foldl_push (l init : List CStr) :
    l.foldl (fun b n => b ++ [n]) init = init ++ l := by
  induction l generalizing init with
  | nil => simp
  | cons a as ih => simp [ih]

/-- Searching a name list for one of its members succeeds and returns that
very name. -/
theorem find_self (a : CStr) (l : List CStr) (h : a ∈ l) :
    l.find? (fun x => decide (a = x)) = some a := by
  induction l with
  | nil => cases h
  | cons b bs ih =>
    by_cases hab : a = b
    · simp [List.find?_cons, hab]
    · have hbs : a ∈ bs := by
        cases h with
        | head => exact absurd rfl hab
        | tail _ hx => exact hx
      simp [List.find?_cons, hab, ih hbs]

/-- When `stat` always succeeds, `status_search` finds every cataloged
name with status 0. -/
theorem status_search_found (stat : CStr → Option Nat)
    (hstat : ∀ q, (stat q).isSome = true) :
    ∀ (names paths : List CStr) (target : CStr), target ∈ names →
      names.length = paths.length →
      (status_search stat names paths target).1 = 0 := by
  intro names
  induction names with
  | nil => intro paths target h; cases h
  | cons nm ns ih =>
    intro paths target hmem hlen
    cases paths with
    | nil => simp at hlen
    | cons p ps =>
      by_cases h : target = nm
      · have := hstat p
        cases hq : stat p with
        | some sz => simp [status_search, h, hq]
        | none => rw [hq] at this; cases this
      · have hns : target ∈ ns := by
          cases hmem with
          | head => exact absurd rfl h
          | tail _ hx => exact hx
        simp only [status_search, if_neg h]
        exact ih ps target hns (by simpa using hlen)

/-- Projection of `library_step` on an accepted entry: the stored name. -/
theorem library_step_names (lib : CStr) (s : lib_state) (d : dirent)
    (h : d.d_type = DT_REG ∧ has_video_extension d.d_name = true) :
    (library_step lib s d).names = s.names ++ [lowercase_extension d.d_name] := by
  simp [library_step, h]

/-- Projection of `library_step` on an accepted entry: the stored path. -/
theorem library_step_paths (lib : CStr) (s : lib_state) (d : dirent)
    (h : d.d_type = DT_REG ∧ has_video_extension d.d_name = true) :
    (library_step lib s d).paths = s.paths ++ [path_concat lib d.d_name] := by
  simp [library_step, h]

/-- Projection of `library_step` on an accepted entry: the count. -/
theorem library_step_count (lib : CStr) (s : lib_state) (d : dirent)
    (h : d.d_type = DT_REG ∧ has_video_extension d.d_name = true) :
    (library_step lib s d).count = s.count + 1 := by
  simp [library_step, h]

/-- Projection of `library_step` on an accepted entry: the capacity grows
by `FILES_MAX` exactly when the arrays have become full. -/
theorem library_step_buffer (lib : CStr) (s : lib_state) (d : dirent)
    (h : d.d_type = DT_REG ∧ has_video_extension d.d_name = true) :
    (library_step lib s d).buffer_size =
      if s.count + 1 = s.buffer_size then s.buffer_size + FILES_MAX
      else s.buffer_size := by
  simp [library_step, h]

/-- The scan loop of `library_init` on a run of accepted entries appends
all of them, in order, to the arrays. -/
theorem library_foldl_accepted (lib : CStr) :
    ∀ (ds : List dirent) (s : lib_state),
      (∀ d ∈ ds, d.d_type = DT_REG ∧ has_video_extension d.d_name = true) →
      (ds.foldl (library_step lib) s).names
          = s.names ++ ds.map (fun d => lowercase_extension d.d_name)
      ∧ (ds.foldl (library_step lib) s).paths
          = s.paths ++ ds.map (fun d => path_concat lib d.d_name)
      ∧ (ds.foldl (library_step lib) s).count = s.count + ds.length := by
  intro ds
  induction ds with
  | nil => intro s h; simp
  | cons d rest ih =>
    intro s hall
    have hd := hall d (List.mem_cons_self d rest)
    obtain ⟨h1, h2, h3⟩ :=
      ih (library_step lib s d) (fun x hx => hall x (List.mem_cons_of_mem d hx))
    refine ⟨?_, ?_, ?_⟩
    · rw [List.foldl_cons, h1, library_step_names lib s d hd]
      simp
    · rw [List.foldl_cons, h2, library_step_paths lib s d hd]
      simp
    · rw [List.foldl_cons, h3, library_step_count lib s d hd]
      simp [Nat.add_assoc, Nat.add_comm 1 rest.length]

/-- The capacity invariant of the scan loop: the allocated size is a
positive multiple of `FILES_MAX`, strictly above the count and at most
`FILES_MAX` beyond it. -/
theorem library_foldl_buffer (lib : CStr) :
    ∀ (ds : List dirent) (s : lib_state),
      (∀ d ∈ ds, d.d_type = DT_REG ∧ has_video_extension d.d_name = true) →
      s.count < s.buffer_size →
      s.buffer_size ≤ s.count + FILES_MAX →
      s.buffer_size % FILES_MAX = 0 →
      (ds.foldl (library_step lib) s).count
          < (ds.foldl (library_step lib) s).buffer_size
      ∧ (ds.foldl (library_step lib) s).buffer_size
          ≤ (ds.foldl (library_step lib) s).count + FILES_MAX
      ∧ (ds.foldl (library_step lib) s).buffer_size % FILES_MAX = 0 := by
  intro ds
  induction ds with
  | nil => intro s h hi1 hi2 hi3; exact ⟨hi1, hi2, hi3⟩
  | cons d rest ih =>
    intro s hall hi1 hi2 hi3
    have hd := hall d (List.mem_cons_self d rest)
    have hc := library_step_count lib s d hd
    have hb := library_step_buffer lib s d hd
    have h64 : FILES_MAX = 64 := rfl
    rw [List.foldl_cons]
    refine ih (library_step lib s d)
      (fun x hx => hall x (List.mem_cons_of_mem d hx)) ?_ ?_ ?_ <;>
      simp only [hc, hb, h64] at hi1 hi2 hi3 ⊢ <;>
      rcases eq_or_ne (s.count + 1) s.buffer_size with hfull | hfull
    · rw [if_pos hfull]
      omega
    · rw [if_neg hfull]
      omega
    · rw [if_pos hfull]
      omega
    · rw [if_neg hfull]
      omega
    · rw [if_pos hfull]
      omega
    · rw [if_neg hfull]
      omega

/-- The read loop is a no-op once the buffer is full, whatever fuel
remains. -/
theorem read_loop_fuel_done (pread : Nat → Nat → Int) (size offset : Nat)
    (f b : Nat) (r : Option Int) (h : ¬ b < size) :
    read_loop_fuel pread size offset f b r = (b, r) := by
  cases f <;> simp [read_loop_fuel, h]

/-- Any two sufficient fuels give the read loop the same result: the fuel
is an artifact of the embedding, not of the C `while` loop. -/
theorem read_loop_fuel_enough (pread : Nat → Nat → Int) (size offset : Nat) :
    ∀ (f1 f2 b : Nat) (r : Option Int), size - b ≤ f1 → size - b ≤ f2 →
      read_loop_fuel pread size offset f1 b r
        = read_loop_fuel pread size offset f2 b r := by
  intro f1
  induction f1 with
  | zero =>
    intro f2 b r h1 h2
    have hb : ¬ b < size := by omega
    rw [read_loop_fuel_done pread size offset 0 b r hb,
      read_loop_fuel_done pread size offset f2 b r hb]
  | succ f ih =>
    intro f2 b r h1 h2
    by_cases hb : b < size
    · cases f2 with
      | zero => omega
      | succ f2p =>
        simp only [read_loop_fuel, if_pos hb]
        by_cases hr : pread (size - b) (offset + b) ≤ 0
        · rw [if_pos hr, if_pos hr]
        · rw [if_neg hr, if_neg hr]
          have hpos : 1 ≤ (pread (size - b) (offset + b)).toNat := by omega
          exact ih f2p (b + (pread (size - b) (offset + b)).toNat) _
            (by omega) (by omega)
    · rw [read_loop_fuel_done pread size offset (f + 1) b r hb,
        read_loop_fuel_done pread size offset f2 b r hb]

/-- One iteration of the read loop while the buffer is not yet full. -/
theorem read_loop_fuel_step (pread : Nat → Nat → Int) (size offset f b : Nat)
    (r : Option Int) (hb : b < size) :
    read_loop_fuel pread size offset (f + 1) b r =
      if pread (size - b) (offset + b) ≤ 0 then
        (b, some (pread (size - b) (offset + b)))
      else
        read_loop_fuel pread size offset f
          (b + (pread (size - b) (offset + b)).toNat)
          (some (pread (size - b) (offset + b))) := by
  simp only [read_loop_fuel, if_pos hb]

/-- On an error-free file of `n` bytes the read loop delivers
`min size (n - offset)` bytes — the full request, or exactly the bytes
available before end-of-file, or nothing at or past end-of-file — and its
last `pread` result is never `-1`. -/
theorem read_loop_preadFile (n size offset : Nat) (hs : 0 < size) :
    (read_loop (preadFile n) size offset 0 none).1 = min size (n - offset)
    ∧ (read_loop (preadFile n) size offset 0 none).2 ≠ some (-1) := by
  obtain ⟨f, rfl⟩ : ∃ f, size = f + 1 := ⟨size - 1, by omega⟩
  simp only [read_loop, Nat.sub_zero]
  by_cases hA : n ≤ offset
  · have hz : n - offset = 0 := by omega
    have hr0 : preadFile n (f + 1 - 0) (offset + 0) = 0 := by
      simp [preadFile, hz]
    rw [read_loop_fuel_step (preadFile n) (f + 1) offset f 0 none
      (Nat.zero_lt_succ f), hr0, if_pos (le_refl (0 : Int))]
    exact ⟨by simp [hz], by decide⟩
  · push_neg at hA
    by_cases hB : f + 1 ≤ n - offset
    · have hr1 : preadFile n (f + 1 - 0) (offset + 0)
          = ((f + 1 : Nat) : Int) := by
        simp only [preadFile]
        omega
      have hnotle : ¬ (((f + 1 : Nat) : Int) ≤ 0) := by omega
      rw [read_loop_fuel_step (preadFile n) (f + 1) offset f 0 none
        (Nat.zero_lt_succ f), hr1, if_neg hnotle]
      have htn : 0 + (((f + 1 : Nat) : Int)).toNat = f + 1 := by omega
      rw [htn, read_loop_fuel_done (preadFile n) (f + 1) offset f (f + 1)
        (some (((f + 1 : Nat) : Int))) (lt_irrefl (f + 1))]
      refine ⟨by simp; omega, ?_⟩
      simp only [ne_eq, Option.some.injEq]
      omega
    · push_neg at hB
      have hapos : 0 < n - offset := by omega
      have hr1 : preadFile n (f + 1 - 0) (offset + 0)
          = ((n - offset : Nat) : Int) := by
        simp only [preadFile]
        omega
      have hnotle : ¬ (((n - offset : Nat) : Int) ≤ 0) := by omega
      rw [read_loop_fuel_step (preadFile n) (f + 1) offset f 0 none
        (Nat.zero_lt_succ f), hr1, if_neg hnotle]
      have htn : 0 + (((n - offset : Nat) : Int)).toNat = n - offset := by omega
      rw [htn]
      obtain ⟨fp, rfl⟩ : ∃ fp, f = fp + 1 := ⟨f - 1, by omega⟩
      rw [read_loop_fuel_step (preadFile n) (fp + 1 + 1) offset fp
        (n - offset) (some (((n - offset : Nat) : Int))) (by omega)]
      have hr2 : preadFile n (fp + 1 + 1 - (n - offset))
          (offset + (n - offset)) = 0 := by
        simp only [preadFile]
        omega
      rw [hr2, if_pos (le_refl (0 : Int))]
      exact ⟨by simp; omega, by simp⟩

/-- A `pread` failure after a partial delivery of `k` bytes leaves the
loop with `k` bytes read and a final result of `-1`. -/
theorem read_loop_partial_fail (k size offset : Nat) (h1 : 0 < k)
    (h2 : k < size) :
    read_loop (pread_fail_after offset k) size offset 0 none
      = (k, some (-1)) := by
  obtain ⟨fp, rfl⟩ : ∃ fp, size = fp + 1 + 1 := ⟨size - 2, by omega⟩
  simp only [read_loop, Nat.sub_zero]
  have hr1 : pread_fail_after offset k (fp + 1 + 1 - 0) (offset + 0)
      = (k : Int) := by
    simp [pread_fail_after]
  have hnotle : ¬ ((k : Int) ≤ 0) := by omega
  rw [read_loop_fuel_step (pread_fail_after offset k) (fp + 1 + 1) offset
    (fp + 1) 0 none (by omega), hr1, if_neg hnotle]
  have htn : 0 + ((k : Int)).toNat = k := by omega
  rw [htn]
  rw [read_loop_fuel_step (pread_fail_after offset k) (fp + 1 + 1) offset
    fp k (some ((k : Int))) (by omega)]
  have hr2 : pread_fail_after offset k (fp + 1 + 1 - k) (offset + k)
      = -1 := by
    have hne : ¬ (offset + k = offset) := by omega
    simp [pread_fail_after, hne]
  rw [hr2, if_pos (by norm_num : (-1 : Int) ≤ 0)]

/-- A recognized caller with a pid different from the stored one logs
exactly one watch and moves the slot to its pid. -/
theorem logging_handle_new (proc : CStr) (pid last_pid : Int) (path : CStr)
    (hproc : proc ∈ media_player_comm) (hne : pid ≠ last_pid) :
    logging_handle (some proc) pid true path last_pid
      = ⟨0, pid, [(pid, path)]⟩ := by
  simp [logging_handle, (str_in_list_iff proc media_player_comm).mpr hproc, hne]

/-- A recognized caller whose pid equals the stored one is suppressed. -/
theorem logging_handle_rep (proc : CStr) (pid : Int) (db_ok : Bool)
    (path : CStr) (hproc : proc ∈ media_player_comm) :
    logging_handle (some proc) pid db_ok path pid = ⟨0, pid, []⟩ := by
  simp [logging_handle, (str_in_list_iff proc media_player_comm).mpr hproc]

/-- An unrecognized caller changes nothing and logs nothing. -/
theorem logging_handle_unrec (proc : CStr) (pid last_pid : Int)
    (db_ok : Bool) (path : CStr) (hproc : proc ∉ media_player_comm) :
    logging_handle (some proc) pid db_ok path last_pid
      = ⟨0, last_pid, []⟩ := by
  have hfalse : str_in_list proc media_player_comm = false := by
    rcases hb : str_in_list proc media_player_comm with _ | _
    · rfl
    · exact absurd ((str_in_list_iff proc media_player_comm).mp hb) hproc
  simp [logging_handle, hfalse]

/-- Folding the deduplicator over unrecognized callers is the identity on
the accumulated state. -/
theorem log_run_unrec_aux (path : CStr) :
    ∀ (events : List read_evt) (last_pid : Int) (acc : List (Int × CStr)),
      (∀ e ∈ events, e.comm ∉ media_player_comm) →
      events.foldl
        (fun acc e =>
          let r := logging_handle (some e.comm) e.pid true path acc.1
          (r.last_pid, acc.2 ++ r.db_calls))
        (last_pid, acc) = (last_pid, acc) := by
  intro events
  induction events with
  | nil => intro last_pid acc h; rfl
  | cons e rest ih =>
    intro last_pid acc h
    have he := h e (List.mem_cons_self e rest)
    simp only [List.foldl_cons,
      logging_handle_unrec e.comm e.pid last_pid true path he]
    simpa using ih last_pid acc (fun x hx => h x (List.mem_cons_of_mem e hx))

/-- When logging succeeds, the path is cataloged, `open` succeeds and
`close` succeeds, `fs_read`'s return value is determined by the read loop:
`-errno` when the last `pread` result was `-1`, the accumulated byte count
otherwise. -/
theorem fs_read_shape (files : video_files) (library_path path : CStr)
    (size offset : Nat) (fi : Option Nat) (env : read_env) (last_pid : Int)
    (hlog : (logging_handle env.comm env.pid env.db_ok path last_pid).ret = 0)
    (hmem : path.drop 1 ∈ files.names)
    (hopen : ∀ p, (env.open_fd p).isSome = true)
    (hclose : env.close_ok = true) :
    (fs_read files library_path path size offset fi env last_pid).ret
      = if (read_loop env.pread size offset 0 none).2 = some (-1)
        then -env.errno
        else ((read_loop env.pread size offset 0 none).1 : Int) := by
  have hmem2 : path.tail ∈ files.names := by rwa [← List.drop_one]
  have hfind := find_self path.tail files.names hmem2
  by_cases hc : (read_loop env.pread size offset 0 none).2 = some (-1)
  · cases fi with
    | some f =>
      have hfd : ¬ (((f : Nat) : Int) = -1) := by omega
      simp [fs_read, hlog, hfind, hclose, hfd, hc]
    | none =>
      obtain ⟨f, hf⟩ := Option.isSome_iff_exists.mp
        (hopen (path_concat library_path path.tail))
      have hfd : ¬ (((f : Nat) : Int) = -1) := by omega
      simp [fs_read, hlog, hfind, hclose, hf, hfd, hc]
  · cases fi with
    | some f =>
      have hfd : ¬ (((f : Nat) : Int) = -1) := by omega
      simp [fs_read, hlog, hfind, hclose, hfd, hc]
    | none =>
      obtain ⟨f, hf⟩ := Option.isSome_iff_exists.mp
        (hopen (path_concat library_path path.tail))
      have hfd : ¬ (((f : Nat) : Int) = -1) := by omega
      simp [fs_read, hlog, hfind, hclose, hf, hfd, hc]

/-! Claim theorems. -/

/-- C1: starting from the initial watch state, a Read from a recognized
media-player process triggers exactly one watch-history insert iff its pid
differs from the stored `last_pid`, updating `last_pid` to it; the
sequence P1, P1, P2, P1 (with P1 ≠ P2, both valid pids) produces exactly
the three inserts insert(P1), insert(P2), insert(P1), the second P1 Read
being suppressed. -/
theorem C1_watch_dedup :
    (∀ (proc path : CStr) (pid last_pid : Int), proc ∈ media_player_comm →
      (pid ≠ last_pid →
        logging_handle (some proc) pid true path last_pid
          = ⟨0, pid, [(pid, path)]⟩)
      ∧ (pid = last_pid →
        logging_handle (some proc) pid true path last_pid
          = ⟨0, last_pid, []⟩))
    ∧ (∀ (c1 c2 c3 c4 path : CStr) (p1 p2 : Int),
        c1 ∈ media_player_comm → c2 ∈ media_player_comm →
        c3 ∈ media_player_comm → c4 ∈ media_player_comm →
        0 ≤ p1 → 0 ≤ p2 → p1 ≠ p2 →
        log_run path [⟨p1, c1⟩, ⟨p1, c2⟩, ⟨p2, c3⟩, ⟨p1, c4⟩] (-1)
          = (p1, [(p1, path), (p2, path), (p1, path)])) := by
  constructor
  · intro proc path pid last_pid hproc
    constructor
    · intro hne
      exact logging_handle_new proc pid last_pid path hproc hne
    · intro heq
      subst heq
      exact logging_handle_rep proc pid true path hproc
  · intro c1 c2 c3 c4 path p1 p2 h1 h2 h3 h4 hp1 hp2 hne
    have s1 := logging_handle_new c1 p1 (-1) path h1 (by omega)
    have s2 := logging_handle_rep c2 p1 true path h2
    have s3 := logging_handle_new c3 p2 p1 path h3 (by omega)
    have s4 := logging_handle_new c4 p1 p2 path h4 (by omega)
    simp [log_run, s1, s2, s3, s4]

/-- Witness for C1 at pids 100 and 200 reading "/x.mp4" through the two
recognized VLC thread names. -/
theorem C1_watch_dedup_witness :
    log_run path_x
      [⟨100, comm_demux⟩, ⟨100, comm_demux⟩, ⟨200, comm_vlc⟩,
        ⟨100, comm_demux⟩] (-1)
      = (100, [(100, path_x), (200, path_x), (100, path_x)])
    ∧ logging_handle (some comm_demux) 100 true path_x (-1)
      = ⟨0, 100, [(100, path_x)]⟩
    ∧ logging_handle (some comm_demux) 100 true path_x 100
      = ⟨0, 100, []⟩ :=
  ⟨C1_watch_dedup.2 comm_demux comm_demux comm_vlc comm_demux path_x 100 200
      (by decide) (by decide) (by decide) (by decide) (by decide) (by decide)
      (by decide),
    (C1_watch_dedup.1 comm_demux path_x 100 (-1) (by decide)).1 (by decide),
    (C1_watch_dedup.1 comm_demux path_x 100 100 (by decide)).2 rfl⟩

/-- C2: `has_video_extension` accepts exactly the filenames with a final
dot whose suffix, lower-cased, is one of the eleven fixed video
extensions; over the directory {a.mp4, B.MKV, notes.txt, no_ext} exactly
the two video files are cataloged. -/
theorem C2_extension_filter :
    (∀ s : CStr, has_video_extension s = true ↔ hasVideoExtensionSpec s)
    ∧ has_video_extension nm_a = true
    ∧ has_video_extension nm_B = true
    ∧ has_video_extension nm_notes = false
    ∧ has_video_extension nm_noext = false
    ∧ (library_init lib_demo demo_dir).count = 2
    ∧ (library_init lib_demo demo_dir).names
        = [lowercase_extension nm_a, lowercase_extension nm_B] :=
  ⟨has_video_extension_iff, by decide, by decide, by decide, by decide,
    by decide, by decide⟩

/-- C9: a Read from a process whose command name is not on the
media-player allow-list never inserts into the watch history and never
changes `last_pid`, over a single call and over any call sequence. -/
theorem C9_unrecognized_never_logs :
    (∀ (proc path : CStr) (pid last_pid : Int) (db_ok : Bool),
      proc ∉ media_player_comm →
      logging_handle (some proc) pid db_ok path last_pid
        = ⟨0, last_pid, []⟩)
    ∧ (∀ (path : CStr) (events : List read_evt) (last_pid : Int),
      (∀ e ∈ events, e.comm ∉ media_player_comm) →
      log_run path events last_pid = (last_pid, [])) := by
  constructor
  · intro proc path pid last_pid db_ok h
    exact logging_handle_unrec proc pid last_pid db_ok path h
  · intro path events last_pid h
    simpa [log_run] using log_run_unrec_aux path events last_pid [] h

/-- Witness for C9: firefox Reads at two different pids insert nothing and
leave the slot at its initial value. -/
theorem C9_unrecognized_never_logs_witness :
    logging_handle (some comm_firefox) 100 true path_x (-1)
      = ⟨0, -1, []⟩
    ∧ log_run path_x [⟨100, comm_firefox⟩, ⟨200, comm_firefox⟩] 7
      = (7, []) :=
  ⟨C9_unrecognized_never_logs.1 comm_firefox path_x 100 (-1) true
      (by decide),
    C9_unrecognized_never_logs.2 path_x
      [⟨100, comm_firefox⟩, ⟨200, comm_firefox⟩] 7 (by decide)⟩

/-- C10: on a Read from a recognized player with a new pid whose
`db_insert` fails, the Read returns `-EFAULT` but `last_pid` has already
been updated, so any subsequent Read from the same pid is suppressed and
the insert is never re-attempted. -/
theorem C10_failed_insert_is_lost :
    ∀ (proc path : CStr) (pid last_pid : Int), proc ∈ media_player_comm →
      pid ≠ last_pid →
      (logging_handle (some proc) pid false path last_pid).ret = -EFAULT
      ∧ (logging_handle (some proc) pid false path last_pid).last_pid = pid
      ∧ (logging_handle (some proc) pid false path last_pid).db_calls
          = [(pid, path)]
      ∧ (∀ (proc2 path2 : CStr) (db2 : Bool),
          (logging_handle (some proc2) pid db2 path2
            (logging_handle (some proc) pid false path last_pid).last_pid
            ).db_calls = []) := by
  intro proc path pid last_pid hproc hne
  have hmain : logging_handle (some proc) pid false path last_pid
      = ⟨-EFAULT, pid, [(pid, path)]⟩ := by
    simp [logging_handle,
      (str_in_list_iff proc media_player_comm).mpr hproc, hne]
  rw [hmain]
  refine ⟨rfl, rfl, rfl, ?_⟩
  intro proc2 path2 db2
  by_cases h2 : proc2 ∈ media_player_comm
  · rw [logging_handle_rep proc2 pid db2 path2 h2]
  · rw [logging_handle_unrec proc2 pid pid db2 path2 h2]

/-- Witness for C10: pid 100's failed insert leaves `last_pid = 100`, and
its next Read is suppressed. -/
theorem C10_failed_insert_is_lost_witness :
    (logging_handle (some comm_demux) 100 false path_x (-1)).ret = -EFAULT
    ∧ (logging_handle (some comm_demux) 100 false path_x (-1)).last_pid
        = 100
    ∧ (logging_handle (some comm_demux) 100 false path_x (-1)).db_calls
        = [(100, path_x)]
    ∧ (logging_handle (some comm_demux) 100 true path_x
        (logging_handle (some comm_demux) 100 false path_x (-1)).last_pid
        ).db_calls = [] := by
  obtain ⟨a, b, c, d⟩ := C10_failed_insert_is_lost comm_demux path_x 100
    (-1) (by decide) (by decide)
  exact ⟨a, b, c, d comm_demux path_x true⟩

/-- C8: when the `/proc` command-name lookup fails, `fs_read` returns
`-EIO_code` before touching the catalog or the file: no bytes are read, no
insert is made, and the deduplication state is unchanged. -/
theorem C8_identity_failure_aborts_read :
    ∀ (files : video_files) (library_path path : CStr) (size offset : Nat)
      (fi : Option Nat) (env : read_env) (last_pid : Int),
      env.comm = none →
      fs_read files library_path path size offset fi env last_pid
        = ⟨-EIO_code, last_pid, [], false⟩ := by
  intro files library_path path size offset fi env last_pid hcomm
  have hlog : logging_handle env.comm env.pid env.db_ok path last_pid
      = ⟨-EIO_code, last_pid, []⟩ := by
    rw [hcomm]
    rfl
  have hne : (-EIO_code : Int) ≠ 0 := by decide
  simp [fs_read, hlog, hne]

/-- Witness for C8: a concrete Read whose identity lookup fails. -/
theorem C8_identity_failure_aborts_read_witness :
    fs_read files_demo lib_demo path_a 4 0 none env_c8 (-1)
      = ⟨-EIO_code, -1, [], false⟩ :=
  C8_identity_failure_aborts_read files_demo lib_demo path_a 4 0 none
    env_c8 (-1) rfl

/-- C4: on a cataloged path with logging, open and close succeeding,
`fs_read` accumulates positioned reads: on an error-free `n`-byte file it
returns `min size (n - offset)` — so `0` (success, not an error) at or
past end-of-file, and the available `n - offset < size` bytes when the
request spans end-of-file — and a `pread` failure after partial success
makes the whole call return `-EIO_code`. -/
theorem C4_read_end_of_file :
    ∀ (files : video_files) (library_path path : CStr) (size offset : Nat)
      (fi : Option Nat) (env : read_env) (last_pid : Int) (n : Nat),
      0 < size →
      (logging_handle env.comm env.pid env.db_ok path last_pid).ret = 0 →
      path.drop 1 ∈ files.names →
      (∀ p, (env.open_fd p).isSome = true) →
      env.close_ok = true →
      env.errno = EIO_code →
      ((env.pread = preadFile n →
        (fs_read files library_path path size offset fi env last_pid).ret
            = ((min size (n - offset) : Nat) : Int)
        ∧ (n ≤ offset →
            (fs_read files library_path path size offset fi env last_pid
              ).ret = 0)
        ∧ (offset < n → n < offset + size →
            (fs_read files library_path path size offset fi env last_pid
              ).ret = ((n - offset : Nat) : Int) ∧ n - offset < size))
      ∧ (∀ k : Nat, 0 < k → k < size →
          env.pread = pread_fail_after offset k →
          (fs_read files library_path path size offset fi env last_pid).ret
            = -EIO_code)) := by
  intro files library_path path size offset fi env last_pid n hs hlog hmem
    hopen hclose herrno
  have hshape := fs_read_shape files library_path path size offset fi env
    last_pid hlog hmem hopen hclose
  constructor
  · intro hpread
    obtain ⟨hl1, hl2⟩ := read_loop_preadFile n size offset hs
    rw [hpread] at hshape
    rw [hshape, if_neg hl2, hl1]
    refine ⟨rfl, ?_, ?_⟩
    · intro hle
      have : min size (n - offset) = 0 := by omega
      rw [this]
      rfl
    · intro hlt1 hlt2
      have : min size (n - offset) = n - offset := by omega
      rw [this]
      exact ⟨rfl, by omega⟩
  · intro k hk1 hk2 hpread
    have hl := read_loop_partial_fail k size offset hk1 hk2
    rw [hpread] at hshape
    rw [hshape, hl]
    simp [herrno]

/-- Witness for C4: reading 4 bytes at offset 8 of a 10-byte file returns
2 bytes as success; a device failure after 2 bytes returns `-EIO_code`. -/
theorem C4_read_end_of_file_witness :
    (fs_read files_demo lib_demo path_a 4 8 none env_c4 (-1)).ret = 2
    ∧ (fs_read files_demo lib_demo path_a 4 8 none env_c4f (-1)).ret
        = -EIO_code := by
  constructor
  · have h := ((C4_read_end_of_file files_demo lib_demo path_a 4 8 none
      env_c4 (-1) 10 (by decide) (by decide) (by decide)
      (fun p => rfl) rfl rfl).1 rfl).1
    simpa using h
  · exact (C4_read_end_of_file files_demo lib_demo path_a 4 8 none
      env_c4f (-1) 10 (by decide) (by decide) (by decide)
      (fun p => rfl) rfl rfl).2 2 (by decide) (by decide) rfl

/-- C6: `fs_readdir` always returns 0; it always yields "." and ".."
first; for the root it additionally yields every catalog name in catalog
order (no omissions, and no duplicates when the catalog names are
duplicate-free); for any other path it yields only the two
pseudo-entries. -/
theorem C6_readdir_total :
    ∀ (files : video_files) (path : CStr),
      (fs_readdir files path).1 = 0
      ∧ (path = root_path →
          (fs_readdir files path).2
            = ".".toList :: "..".toList :: files.names)
      ∧ (path ≠ root_path →
          (fs_readdir files path).2 = [".".toList, "..".toList])
      ∧ (path = root_path → files.names.Nodup →
          ".".toList ∉ files.names → "..".toList ∉ files.names →
          (fs_readdir files path).2.Nodup) := by
  intro files path
  have hroot : ∀ h : path = root_path,
      (fs_readdir files path).2
        = ".".toList :: "..".toList :: files.names := by
    intro h
    simp [fs_readdir, h, root_path, foldl_push]
  refine ⟨rfl, hroot, ?_, ?_⟩
  · intro h
    have hne : ¬ (path = [ '/' ]) := by
      simpa [root_path] using h
    simp [fs_readdir, hne]
  · intro h hnd h1 h2
    rw [hroot h, List.nodup_cons, List.nodup_cons]
    refine ⟨?_, h2, hnd⟩
    intro hx
    rcases List.mem_cons.mp hx with h0 | h0
    · exact absurd h0 (by decide)
    · exact h1 h0

/-- Witness for C6 on the one-file demo catalog. -/
theorem C6_readdir_total_witness :
    (fs_readdir files_demo root_path).1 = 0
    ∧ (fs_readdir files_demo root_path).2
        = ".".toList :: "..".toList :: files_demo.names
    ∧ (fs_readdir files_demo path_a).2 = [".".toList, "..".toList]
    ∧ (fs_readdir files_demo root_path).2.Nodup := by
  obtain ⟨a, b, -, d⟩ := C6_readdir_total files_demo root_path
  obtain ⟨-, -, c2, -⟩ := C6_readdir_total files_demo path_a
  exact ⟨a, b rfl, c2 (by decide),
    d rfl (by decide) (by decide) (by decide)⟩

/-- C7: scanning 65 accepted files yields count 65 with every stored name
present and retrievable through the catalog search, and the capacity has
grown once, from 64 to 128, losing no entry. -/
theorem C7_growth_preserves_entries :
    ∀ (library_path : CStr) (ds : List dirent),
      ds.length = 65 →
      (∀ d ∈ ds, d.d_type = DT_REG ∧ has_video_extension d.d_name = true) →
      (library_init library_path ds).count = 65
      ∧ (library_init library_path ds).names
          = ds.map (fun d => lowercase_extension d.d_name)
      ∧ (library_init library_path ds).buffer_size = 128
      ∧ (∀ nm ∈ (library_init library_path ds).names, ∀ sz : Nat,
          (get_file_status (files_of (library_init library_path ds))
            (fun _ => some sz) ('/' :: nm)).1 = 0) := by
  intro library_path ds hlen hall
  obtain ⟨h1, h2, h3⟩ := library_foldl_accepted library_path ds
    ⟨[], [], 0, FILES_MAX⟩ hall
  obtain ⟨b1, b2, b3⟩ := library_foldl_buffer library_path ds
    ⟨[], [], 0, FILES_MAX⟩ hall (by decide) (by decide) (by decide)
  have hnames : (library_init library_path ds).names
      = ds.map (fun d => lowercase_extension d.d_name) := by
    simpa [library_init] using h1
  have hpaths : (library_init library_path ds).paths
      = ds.map (fun d => path_concat library_path d.d_name) := by
    simpa [library_init] using h2
  have hcount : (library_init library_path ds).count = 65 := by
    simpa [library_init, hlen] using h3
  refine ⟨hcount, hnames, ?_, ?_⟩
  · have h64 : FILES_MAX = 64 := rfl
    have hc : (ds.foldl (library_step library_path)
        ⟨[], [], 0, FILES_MAX⟩).count = 65 := by
      simpa [library_init] using hcount
    show (ds.foldl (library_step library_path)
        ⟨[], [], 0, FILES_MAX⟩).buffer_size = 128
    set S := ds.foldl (library_step library_path)
      (⟨[], [], 0, FILES_MAX⟩ : lib_state) with hS
    rw [h64] at b2 b3
    omega
  · intro nm hmem sz
    have hlens : (library_init library_path ds).names.length
        = (library_init library_path ds).paths.length := by
      rw [hnames, hpaths]
      simp
    exact status_search_found (fun _ => some sz) (fun q => rfl)
      (library_init library_path ds).names
      (library_init library_path ds).paths nm hmem hlens

/-- Witness for C7: a concrete 65-entry directory of accepted files. -/
theorem C7_growth_preserves_entries_witness :
    (library_init lib_demo ds65).count = 65
    ∧ (library_init lib_demo ds65).buffer_size = 128
    ∧ (get_file_status (files_of (library_init lib_demo ds65))
        (fun _ => some 7) ('/' :: nm_a)).1 = 0 := by
  obtain ⟨a, b, c, d⟩ := C7_growth_preserves_entries lib_demo ds65
    (by decide) (by decide)
  refine ⟨a, c, ?_⟩
  have hmem : nm_a ∈ (library_init lib_demo ds65).names := by
    rw [b]
    decide
  exact d nm_a hmem 7

/-- C3 (refuted, code bug): the display name stored by the catalog is not
the on-disk basename when the extension contains upper-case letters:
`has_video_extension` lower-cases the extension in place through its
`const char *` parameter before `library_init` copies the name, so a
directory holding "B.MKV" is cataloged as "B.mkv". -/
theorem C3_display_name_lowercased :
    (library_init lib_demo [⟨DT_REG, nm_B⟩]).names = [nm_B_low]
    ∧ nm_B_low ≠ nm_B := by decide

/-- C5 (refuted on its last conjunct, code bug): when the `stat` query on
the real backing file fails, `fs_getattr` returns `get_file_status`'s
value `-1` — that is `-EPERM`, a constant independent of the underlying
`errno` (for instance `ENOENT`), so the underlying system error is not
surfaced. -/
theorem C5_stat_failure_returns_minus_one :
    fs_getattr files_demo (fun _ => none) 1000 1000 111 0 path_a
      = Except.error (-1)
    ∧ (-1 : Int) = -EPERM
    ∧ EPERM ≠ ENOENT :=
  ⟨rfl, by decide, by decide⟩

end FilmFS
